import Mathlib

/-!
Shallow embedding of `models.ipynb` (magnetic / topological materials
classification notebook).

The notebook loads pre-computed feature tables and a pre-trained
scikit-learn classifier, runs 5-fold cross-validation (`KFold(n_splits=5,
shuffle=True)`), reports per-fold F1 scores for both class polarities
(`pos_label=1` and `pos_label=0`), prints summary statistics
(`np.mean`, `np.median`, `np.std`), and finally scores a held-out test set
(`round(clf.score(X_test, y_test), 2)`) and prints a
`classification_report`.

Modelling choices:
* features are opaque (`F`), samples are indexed by `Nat`, labels are `Nat`;
* floating point arithmetic is idealised as exact rational arithmetic `ℚ`;
* the shuffled order produced by `KFold(shuffle=True)` is passed in
  explicitly as `perm`, the shuffled list of sample indices;
* a scikit-learn classifier is a pair of pure functions: `fit` builds a
  fresh fitted state from the training data alone (sklearn's `fit`
  re-initialises the estimator, discarding any previous fit), and
  `predict` maps the fitted state and a feature list to predicted labels.
-/

/-- A scikit-learn style classifier: `fitFn` builds the fitted state from
training data, `predictFn` predicts labels from a fitted state. -/
structure Classifier (σ F : Type) where
  fitFn : List F → List Nat → σ
  predictFn : σ → List F → List Nat

/-- `clf.fit(X, y)`: the previous fitted state is overwritten; the new state
depends only on the training data (sklearn `fit` re-initialises). -/
def Classifier.fitCall (c : Classifier σ F) (_old : σ) (X : List F) (y : List Nat) : σ :=
  c.fitFn X y

/-! ### KFold

`sklearn.model_selection.KFold(n_splits=k, shuffle=True)`: the shuffled
index order is cut into `k` contiguous chunks; the first `n % k` chunks
have size `n / k + 1`, the rest size `n / k`.  `split` then returns, for
each fold, the test indices (ascending) and the train indices (ascending,
the complement). -/

/-- Size of fold `i` out of `k` for `n` samples. -/
def fold_size (n k i : Nat) : Nat := n / k + if i < n % k then 1 else 0

/-- The list of all `k` fold sizes. -/
def fold_sizes (n k : Nat) : List Nat := (List.range k).map (fold_size n k)

/-- Cut a list into consecutive chunks of the given sizes. -/
def chunks : List Nat → List α → List (List α)
  | [], _ => []
  | s :: rest, l => l.take s :: chunks rest (l.drop s)

/-- The chunk of the shuffled order assigned to test fold `i`. -/
def test_slice (perm : List Nat) (k i : Nat) : List Nat :=
  (chunks (fold_sizes perm.length k) perm).getD i []

/-- Test indices of fold `i`, in ascending order (as `KFold.split` returns
`indices[test_mask]` with `indices = arange(n)`). -/
def test_indices (perm : List Nat) (k i : Nat) : List Nat :=
  (List.range perm.length).filter (fun j => decide (j ∈ test_slice perm k i))

/-- Train indices of fold `i`: the ascending complement of the test mask. -/
def train_indices (perm : List Nat) (k i : Nat) : List Nat :=
  (List.range perm.length).filter (fun j => decide (¬ j ∈ test_slice perm k i))

/-- `kf.split(X, y)`: the pairs `(train, test)` for each fold.  `KFold.split`
accepts the label array `y` but ignores it (the split is not stratified). -/
def kfold_split_call (perm : List Nat) (k : Nat) (_y_labels : List Nat) :
    List (List Nat × List Nat) :=
  (List.range k).map (fun i => (train_indices perm k i, test_indices perm k i))

/-! ### Metrics -/

/-- `sklearn.metrics.f1_score(y_true, y_pred, pos_label=p)` for binary input:
`2*tp / (2*tp + fp + fn)`, and `0` when there are no true and no predicted
positives (sklearn emits a warning and returns `0.0`). -/
def f1_score (y_true y_pred : List Nat) (pos_label : Nat) : ℚ :=
  let pairs := y_true.zip y_pred
  let tp := pairs.countP (fun ab => ab.1 == pos_label && ab.2 == pos_label)
  let fp := pairs.countP (fun ab => !(ab.1 == pos_label) && ab.2 == pos_label)
  let fn := pairs.countP (fun ab => ab.1 == pos_label && !(ab.2 == pos_label))
  if 2 * tp + fp + fn = 0 then 0 else (2 * tp : ℚ) / ((2 * tp + fp + fn : Nat) : ℚ)

/-- `sklearn.metrics.accuracy_score(y_true, y_pred)`: fraction of positions
where prediction equals truth. -/
def accuracy_score (y_true y_pred : List Nat) : ℚ :=
  (((y_true.zip y_pred).countP (fun ab => ab.1 == ab.2) : Nat) : ℚ) / (y_true.length : ℚ)

/-- `clf.score(X, y)` for a sklearn classifier: `accuracy_score(y, clf.predict(X))`. -/
def Classifier.scoreOn (c : Classifier σ F) (s : σ) (X : List F) (y : List Nat) : ℚ :=
  accuracy_score y (c.predictFn s X)

/-! ### Summary statistics (`np.mean`, `np.median`, `np.std`) -/

/-- `np.mean`: arithmetic mean. -/
def list_mean (xs : List ℚ) : ℚ := xs.sum / (xs.length : ℚ)

/-- `np.median`: middle element of the sorted list, or the average of the two
middle elements when the length is even. -/
def list_median (xs : List ℚ) : ℚ :=
  let s := List.insertionSort (· ≤ ·) xs
  let n := s.length
  if n % 2 = 1 then s.getD (n / 2) 0
  else (s.getD (n / 2 - 1) 0 + s.getD (n / 2) 0) / 2

/-- The quantity whose square root `np.std` takes: the mean of squared
deviations from the mean — the *population* variance (divisor `n`). -/
def pop_variance (xs : List ℚ) : ℚ :=
  ((xs.map (fun x => (x - list_mean xs) ^ 2)).sum) / (xs.length : ℚ)

/-! ### Decimal rounding and fixed-point formatting -/

/-- Round `q * 10^d` to the nearest integer, ties to even (the rounding used
by Python's `round` and by float formatting). -/
def round_half_even_scaled (d : Nat) (q : ℚ) : Int :=
  let den : Int := (q.den : Int)
  let m : Int := q.num * (10 ^ d : Nat)
  let e : Int := Int.fdiv m den
  let r : Int := m - e * den
  if 2 * r < den then e
  else if den < 2 * r then e + 1
  else if e % 2 = 0 then e else e + 1

/-- Python's `round(q, d)`: `q` rounded to `d` decimal places. -/
def round_to (d : Nat) (q : ℚ) : ℚ :=
  ((round_half_even_scaled d q : ℚ)) / ((10 ^ d : Nat) : ℚ)

/-- Left-pad a string with zeros to length `d`. -/
def pad_zeros (d : Nat) (s : String) : String :=
  String.mk (List.replicate (d - s.length) '0') ++ s

/-- Render the integer `m` as the decimal `m / 10^d` with exactly `d` digits
after the point. -/
def render_scaled (d : Nat) (m : Int) : String :=
  let a := m.natAbs
  let core := toString (a / 10 ^ d) ++ "." ++ pad_zeros d (toString (a % 10 ^ d))
  if m < 0 then "-" ++ core else core

/-- Format `q` with exactly `d` digits after the decimal point
(Python's `"%.df" % q` / `"{:.df}".format(q)`). -/
def fmt_fixed (d : Nat) (q : ℚ) : String := render_scaled d (round_half_even_scaled d q)

/-- Round `√v * 100` to the nearest integer (ties to even), by exact integer
arithmetic: with `v = p / q ≥ 0` scaled so `p = v.num * 10000`, the floor of
`√(p/q)` is `Nat.sqrt (p*q) / q`, and the half-point comparison
`√(p/q) ≥ e + 1/2` is `4*p ≥ (2*e+1)^2 * q`. -/
def sqrt_scaled_2 (v : ℚ) : Int :=
  if v ≤ 0 then 0
  else
    let p : Nat := v.num.toNat * 10000
    let q : Nat := v.den
    let e : Nat := Nat.sqrt (p * q) / q
    if 4 * p < (2 * e + 1) ^ 2 * q then (e : Int)
    else if (2 * e + 1) ^ 2 * q < 4 * p then (e : Int) + 1
    else if e % 2 = 0 then (e : Int) else (e : Int) + 1

/-- `"%.2f" % np.std(xs)`: the printed two-decimal population standard
deviation, i.e. `√(pop_variance)` rounded to two decimals. -/
def fmt_std (v : ℚ) : String := render_scaled 2 (sqrt_scaled_2 v)

/-! ### The cross-validation loop -/

/-- `"[fold {i}] {name} score: {f1:.3f}"`. -/
def fold_line (i : Nat) (name : String) (f1 : ℚ) : String :=
  "[fold " ++ toString i ++ "] " ++ name ++ " score: " ++ fmt_fixed 3 f1

/-- `"{name} Mean: %.2f median: %.2f stdev: %.2f" % (np.mean(xs), np.median(xs), np.std(xs))`. -/
def summary_line (name : String) (xs : List ℚ) : String :=
  name ++ " Mean: " ++ fmt_fixed 2 (list_mean xs) ++ " median: " ++
    fmt_fixed 2 (list_median xs) ++ " stdev: " ++ fmt_std (pop_variance xs)

/-- Result of a cross-validation cell: the classifier state left behind, the
two score lists (`fm_scores`/`afm_scores`, resp. `topo_scores`/`triv_scores`),
and the printed lines. -/
@[ext]
structure CVResult (σ : Type) where
  state : σ
  pos_scores : List ℚ
  neg_scores : List ℚ
  lines : List String
deriving DecidableEq

/-- One iteration of the cross-validation loop body:
`clf.fit(X[train], y[train])`; two `f1_score` calls on fold `i` with
`pos_label` and `neg_label`; two appended scores; two printed lines. -/
def cv_fold_step (c : Classifier σ F) (X : Nat → F) (y : Nat → Nat) (perm : List Nat)
    (k pos_label neg_label : Nat) (pos_name neg_name : String)
    (acc : CVResult σ) (i : Nat) : CVResult σ :=
  let train := train_indices perm k i
  let test := test_indices perm k i
  let s := c.fitCall acc.state (train.map X) (train.map y)
  let y_true := test.map y
  let y_pred := c.predictFn s (test.map X)
  let f1p := f1_score y_true y_pred pos_label
  let f1n := f1_score y_true y_pred neg_label
  { state := s
    pos_scores := acc.pos_scores ++ [f1p]
    neg_scores := acc.neg_scores ++ [f1n]
    lines := acc.lines ++ [fold_line i pos_name f1p, fold_line i neg_name f1n] }

/-- The cross-validation procedure of the notebook, parametrised as in the
design spec: loop over the `k` folds, then print one summary line per
class. -/
def cross_validate (c : Classifier σ F) (X : Nat → F) (y : Nat → Nat) (perm : List Nat)
    (k pos_label neg_label : Nat) (pos_name neg_name : String) (s0 : σ) : CVResult σ :=
  let r := (List.range k).foldl
    (cv_fold_step c X y perm k pos_label neg_label pos_name neg_name)
    ⟨s0, [], [], []⟩
  { r with lines := r.lines ++
      [summary_line pos_name r.pos_scores, summary_line neg_name r.neg_scores] }

/-- The magnetic-ordering cross-validation cell, translated directly:
`fm_scores`/`afm_scores` are `pos_scores`/`neg_scores`; `pos_label=1` (FM),
`pos_label=0` (AFM); `clf.predict` is called once per `f1_score` (pure, so
shared). -/
def magnetism_cell (c : Classifier σ F) (X : Nat → F) (y : Nat → Nat) (perm : List Nat)
    (s0 : σ) : CVResult σ :=
  let r := (List.range 5).foldl (fun acc i =>
    let train := train_indices perm 5 i
    let test := test_indices perm 5 i
    let s := c.fitCall acc.state (train.map X) (train.map y)
    let f1s_fm := f1_score (test.map y) (c.predictFn s (test.map X)) 1
    let f1s_afm := f1_score (test.map y) (c.predictFn s (test.map X)) 0
    { state := s
      pos_scores := acc.pos_scores ++ [f1s_fm]
      neg_scores := acc.neg_scores ++ [f1s_afm]
      lines := acc.lines ++ [fold_line i "FM" f1s_fm, fold_line i "AFM" f1s_afm] })
    (⟨s0, [], [], []⟩ : CVResult σ)
  { r with lines := r.lines ++
      [summary_line "FM" r.pos_scores, summary_line "AFM" r.neg_scores] }

/-- The topological-phase cross-validation cell, translated directly:
`topo_scores`/`triv_scores` are `pos_scores`/`neg_scores`; `pos_label=1`
(Topological), `pos_label=0` (Trivial). -/
def topology_cell (c : Classifier σ F) (X : Nat → F) (y : Nat → Nat) (perm : List Nat)
    (s0 : σ) : CVResult σ :=
  let r := (List.range 5).foldl (fun acc i =>
    let train := train_indices perm 5 i
    let test := test_indices perm 5 i
    let s := c.fitCall acc.state (train.map X) (train.map y)
    let f1s_topo := f1_score (test.map y) (c.predictFn s (test.map X)) 1
    let f1s_triv := f1_score (test.map y) (c.predictFn s (test.map X)) 0
    { state := s
      pos_scores := acc.pos_scores ++ [f1s_topo]
      neg_scores := acc.neg_scores ++ [f1s_triv]
      lines := acc.lines ++ [fold_line i "Topological" f1s_topo, fold_line i "Trivial" f1s_triv] })
    (⟨s0, [], [], []⟩ : CVResult σ)
  { r with lines := r.lines ++
      [summary_line "Topological" r.pos_scores, summary_line "Trivial" r.neg_scores] }

/-! ### Hold-out evaluation -/

/-- `round(clf.score(X_test, y_test), 2)`: accuracy on the held-out set,
rounded to 2 decimals, using whatever fitted state `s` the classifier holds. -/
def evaluate_holdout (c : Classifier σ F) (s : σ) (X_test : List F) (y_test : List Nat) : ℚ :=
  round_to 2 (c.scoreOn s X_test y_test)

/-- Cells 8 + 10 in sequence: the cross-validation loop, then the hold-out
score with no intervening `fit` — the state scored is exactly the one left
by the loop. -/
def magnetism_holdout (c : Classifier σ F) (X : Nat → F) (y : Nat → Nat) (perm : List Nat)
    (s0 : σ) (X_test : List F) (y_test : List Nat) : ℚ :=
  evaluate_holdout c (magnetism_cell c X y perm s0).state X_test y_test

/-! ### classification_report -/

/-- The sorted list of distinct labels occurring in `y_true ++ y_pred`
(sklearn's `unique_labels`, ascending). -/
def labels_present (y_true y_pred : List Nat) : List Nat :=
  let all := y_true ++ y_pred
  (List.range (all.foldr max 0 + 1)).filter (fun l => decide (l ∈ all))

/-- Precision for class `l`: `tp / (tp + fp)`, `0` when nothing is predicted
as `l`. -/
def precisionOf (y_true y_pred : List Nat) (l : Nat) : ℚ :=
  let pairs := y_true.zip y_pred
  let tp := pairs.countP (fun ab => ab.1 == l && ab.2 == l)
  let predicted := pairs.countP (fun ab => ab.2 == l)
  if predicted = 0 then 0 else ((tp : Nat) : ℚ) / ((predicted : Nat) : ℚ)

/-- Recall for class `l`: `tp / (tp + fn)`, `0` when `l` never occurs in
`y_true`. -/
def recallOf (y_true y_pred : List Nat) (l : Nat) : ℚ :=
  let pairs := y_true.zip y_pred
  let tp := pairs.countP (fun ab => ab.1 == l && ab.2 == l)
  let actual := pairs.countP (fun ab => ab.1 == l)
  if actual = 0 then 0 else ((tp : Nat) : ℚ) / ((actual : Nat) : ℚ)

/-- One per-class row of `classification_report`. -/
structure ReportRow where
  name : String
  precisionVal : ℚ
  recallVal : ℚ
  f1Val : ℚ
  supportVal : Nat
deriving DecidableEq

/-- The per-class rows of `sklearn.metrics.classification_report(y_true,
y_pred, target_names=names)`: the sorted distinct labels are zipped with
`target_names` in index order.  (The report's accuracy / macro-avg /
weighted-avg footer rows are not modelled; the claims concern the per-class
rows.) -/
def classification_report (y_true y_pred : List Nat) (target_names : List String) :
    List ReportRow :=
  ((labels_present y_true y_pred).zip target_names).map (fun ln =>
    { name := ln.2
      precisionVal := precisionOf y_true y_pred ln.1
      recallVal := recallOf y_true y_pred ln.1
      f1Val := f1_score y_true y_pred ln.1
      supportVal := y_true.count ln.1 })

/-! ### Per-fold characterisations (used to state the theorems) -/

/-- The fitted state produced by fold `i`: `clf.fit(X[train_i], y[train_i])`. -/
def fold_fit_state (c : Classifier σ F) (X : Nat → F) (y : Nat → Nat) (perm : List Nat)
    (k i : Nat) : σ :=
  c.fitFn ((train_indices perm k i).map X) ((train_indices perm k i).map y)

/-- The predictions of fold `i`'s freshly fitted state on fold `i`'s test set. -/
def fold_pred (c : Classifier σ F) (X : Nat → F) (y : Nat → Nat) (perm : List Nat)
    (k i : Nat) : List Nat :=
  c.predictFn (fold_fit_state c X y perm k i) ((test_indices perm k i).map X)

/-- The F1 score recorded for fold `i` with positive label `lab`. -/
def fold_score (c : Classifier σ F) (X : Nat → F) (y : Nat → Nat) (perm : List Nat)
    (k : Nat) (lab : Nat) (i : Nat) : ℚ :=
  f1_score ((test_indices perm k i).map y) (fold_pred c X y perm k i) lab

/-! ### Concrete fixtures for witnesses -/

/-- A tiny concrete classifier: the state stores the training data, the
prediction is the parity of the feature. -/
def tclf : Classifier (List Nat × List Nat) Nat :=
  { fitFn := fun X y => (X, y), predictFn := fun _s X => X.map (fun v => v % 2) }

/-- Concrete features: the identity on indices. -/
def tX : Nat → Nat := fun i => i

/-- Concrete labels: parity of the index. -/
def tY : Nat → Nat := fun i => i % 2

/-- A concrete shuffled order of `0..4`. -/
def tPerm : List Nat := [2, 0, 3, 1, 4]

/-! ### Characterisation of the cross-validation loop -/

section LoopLemmas

variable (c : Classifier σ F) (X : Nat → F) (y : Nat → Nat) (perm : List Nat)
variable (k pl nl : Nat) (pn nn : String)

lemma cv_loop_pos (l : List Nat) (acc : CVResult σ) :
    (l.foldl (cv_fold_step c X y perm k pl nl pn nn) acc).pos_scores
      = acc.pos_scores ++ l.map (fold_score c X y perm k pl) := by
  induction l generalizing acc with
  | nil => simp
  | cons i l ih =>
    rw [List.foldl_cons, ih]
    simp [cv_fold_step, fold_score, fold_pred, fold_fit_state, Classifier.fitCall]

lemma cv_loop_neg (l : List Nat) (acc : CVResult σ) :
    (l.foldl (cv_fold_step c X y perm k pl nl pn nn) acc).neg_scores
      = acc.neg_scores ++ l.map (fold_score c X y perm k nl) := by
  induction l generalizing acc with
  | nil => simp
  | cons i l ih =>
    rw [List.foldl_cons, ih]
    simp [cv_fold_step, fold_score, fold_pred, fold_fit_state, Classifier.fitCall]

lemma cv_loop_lines (l : List Nat) (acc : CVResult σ) :
    (l.foldl (cv_fold_step c X y perm k pl nl pn nn) acc).lines
      = acc.lines ++ l.flatMap (fun i =>
          [fold_line i pn (fold_score c X y perm k pl i),
           fold_line i nn (fold_score c X y perm k nl i)]) := by
  induction l generalizing acc with
  | nil => simp
  | cons i l ih =>
    rw [List.foldl_cons, ih]
    simp [cv_fold_step, fold_score, fold_pred, fold_fit_state, Classifier.fitCall]

lemma cv_loop_state (l : List Nat) (j : Nat) (acc : CVResult σ) :
    ((l ++ [j]).foldl (cv_fold_step c X y perm k pl nl pn nn) acc).state
      = fold_fit_state c X y perm k j := by
  rw [List.foldl_append]
  simp [cv_fold_step, fold_fit_state, Classifier.fitCall]

lemma cross_validate_pos (s0 : σ) :
    (cross_validate c X y perm k pl nl pn nn s0).pos_scores
      = (List.range k).map (fold_score c X y perm k pl) := by
  simp [cross_validate, cv_loop_pos]

lemma cross_validate_neg (s0 : σ) :
    (cross_validate c X y perm k pl nl pn nn s0).neg_scores
      = (List.range k).map (fold_score c X y perm k nl) := by
  simp [cross_validate, cv_loop_neg]

lemma cross_validate_lines (s0 : σ) :
    (cross_validate c X y perm k pl nl pn nn s0).lines
      = ((List.range k).flatMap (fun i =>
          [fold_line i pn (fold_score c X y perm k pl i),
           fold_line i nn (fold_score c X y perm k nl i)])) ++
        [summary_line pn ((List.range k).map (fold_score c X y perm k pl)),
         summary_line nn ((List.range k).map (fold_score c X y perm k nl))] := by
  simp [cross_validate, cv_loop_lines, cv_loop_pos, cv_loop_neg]

lemma cross_validate_state (s0 : σ) (hk : 1 ≤ k) :
    (cross_validate c X y perm k pl nl pn nn s0).state
      = fold_fit_state c X y perm k (k - 1) := by
  obtain ⟨k', rfl⟩ : ∃ k', k = k' + 1 := ⟨k - 1, (Nat.succ_pred_eq_of_pos hk).symm⟩
  simp only [cross_validate, List.range_succ]
  rw [cv_loop_state]
  simp

end LoopLemmas

/-! ### The k-fold split is a partition -/

lemma sum_sizes_aux (q r : Nat) : ∀ k : Nat,
    ((List.range k).map (fun i => q + if i < r then 1 else 0)).sum = k * q + min r k := by
  intro k
  induction k with
  | zero => simp
  | succ k ih =>
    rw [List.range_succ, List.map_append, List.sum_append, ih, Nat.succ_mul]
    by_cases h : k < r
    · simp only [List.map_cons, List.map_nil, List.sum_cons, List.sum_nil, if_pos h]
      have h1 : min r (k + 1) = min r k + 1 := by omega
      omega
    · simp only [List.map_cons, List.map_nil, List.sum_cons, List.sum_nil, if_neg h]
      have h1 : min r (k + 1) = min r k := by omega
      omega

lemma fold_sizes_sum (n k : Nat) (hk : 1 ≤ k) : (fold_sizes n k).sum = n := by
  unfold fold_sizes fold_size
  rw [sum_sizes_aux]
  have h1 : n % k < k := Nat.mod_lt _ hk
  rw [Nat.min_eq_left h1.le]
  exact Nat.div_add_mod n k

lemma chunks_flatten (sizes : List Nat) : ∀ l : List α,
    (chunks sizes l).flatten = l.take sizes.sum := by
  induction sizes with
  | nil => intro l; simp [chunks]
  | cons s rest ih =>
    intro l
    simp only [chunks, List.flatten_cons, ih, List.sum_cons]
    rw [List.take_add]

lemma chunks_length (sizes : List Nat) (l : List α) :
    (chunks sizes l).length = sizes.length := by
  induction sizes generalizing l with
  | nil => simp [chunks]
  | cons s rest ih => simp [chunks, ih]

lemma chunks_map_length (sizes : List Nat) : ∀ l : List α, sizes.sum ≤ l.length →
    (chunks sizes l).map List.length = sizes := by
  induction sizes with
  | nil => intro l _; simp [chunks]
  | cons s rest ih =>
    intro l h
    simp only [List.sum_cons] at h
    simp only [chunks, List.map_cons]
    have h1 : (List.take s l).length = s := by
      rw [List.length_take]
      omega
    rw [h1, ih _ (by rw [List.length_drop]; omega)]

lemma num_chunks (perm : List Nat) (k : Nat) :
    (chunks (fold_sizes perm.length k) perm).length = k := by
  rw [chunks_length]
  simp [fold_sizes]

lemma mem_of_mem_test_slice (perm : List Nat) (k i x : Nat)
    (h : x ∈ test_slice perm k i) : x ∈ perm := by
  rcases Nat.lt_or_ge i (chunks (fold_sizes perm.length k) perm).length with hi | hi
  · have hx : x ∈ (chunks (fold_sizes perm.length k) perm).flatten := by
      apply List.mem_flatten.mpr
      refine ⟨(chunks (fold_sizes perm.length k) perm)[i], List.getElem_mem hi, ?_⟩
      rw [test_slice, List.getD_eq_getElem _ _ hi] at h
      exact h
    rw [chunks_flatten] at hx
    exact (List.take_sublist _ _).subset hx
  · rw [test_slice, List.getD_eq_default _ _ hi] at h
    simp at h

lemma test_slice_disjoint (perm : List Nat) (k : Nat) (hnd : perm.Nodup)
    (i j : Nat) (hij : i ≠ j) (x : Nat)
    (hx : x ∈ test_slice perm k i) : x ∉ test_slice perm k j := by
  intro hxj
  have hi : i < (chunks (fold_sizes perm.length k) perm).length := by
    by_contra h
    rw [test_slice, List.getD_eq_default _ _ (Nat.le_of_not_lt h)] at hx
    simp at hx
  have hj : j < (chunks (fold_sizes perm.length k) perm).length := by
    by_contra h
    rw [test_slice, List.getD_eq_default _ _ (Nat.le_of_not_lt h)] at hxj
    simp at hxj
  have hflat : (chunks (fold_sizes perm.length k) perm).flatten.Nodup := by
    rw [chunks_flatten]
    exact (List.take_sublist _ _).nodup hnd
  have hpw := (List.nodup_flatten.mp hflat).2
  rw [test_slice, List.getD_eq_getElem _ _ hi] at hx
  rw [test_slice, List.getD_eq_getElem _ _ hj] at hxj
  rcases Nat.lt_or_ge i j with h | h
  · exact (List.pairwise_iff_getElem.mp hpw i j hi hj h) hx hxj
  · have hji : j < i := by omega
    exact (List.pairwise_iff_getElem.mp hpw j i hj hi hji) hxj hx

lemma exists_test_slice_of_mem (perm : List Nat) (k : Nat) (hk : 1 ≤ k) (x : Nat)
    (hx : x ∈ perm) : ∃ i, i < k ∧ x ∈ test_slice perm k i := by
  have hflat : x ∈ (chunks (fold_sizes perm.length k) perm).flatten := by
    rw [chunks_flatten, fold_sizes_sum _ _ hk, List.take_length]
    exact hx
  rcases List.mem_flatten.mp hflat with ⟨l, hl, hxl⟩
  rcases List.mem_iff_getElem.mp hl with ⟨i, hi, rfl⟩
  refine ⟨i, ?_, ?_⟩
  · have := num_chunks perm k
    omega
  · rw [test_slice, List.getD_eq_getElem _ _ hi]
    exact hxl

lemma perm_length_eq (perm : List Nat) (n : Nat) (hperm : perm.Perm (List.range n)) :
    perm.length = n := by
  rw [hperm.length_eq, List.length_range]

lemma mem_test_indices_iff (perm : List Nat) (n k : Nat) (hperm : perm.Perm (List.range n))
    (i x : Nat) : x ∈ test_indices perm k i ↔ x ∈ test_slice perm k i := by
  simp only [test_indices, List.mem_filter, List.mem_range, decide_eq_true_eq]
  constructor
  · exact fun h => h.2
  · intro h
    refine ⟨?_, h⟩
    have hx : x ∈ perm := mem_of_mem_test_slice perm k i x h
    have h2 := hperm.mem_iff.mp hx
    rw [List.mem_range] at h2
    rw [perm_length_eq perm n hperm]
    exact h2

lemma mem_train_indices_iff (perm : List Nat) (n k : Nat) (hperm : perm.Perm (List.range n))
    (i x : Nat) : x ∈ train_indices perm k i ↔ x < n ∧ ¬ x ∈ test_slice perm k i := by
  simp only [train_indices, List.mem_filter, List.mem_range, decide_eq_true_eq]
  rw [perm_length_eq perm n hperm]

lemma test_slice_length (perm : List Nat) (k : Nat) (hk : 1 ≤ k) (i : Nat) (hi : i < k) :
    (test_slice perm k i).length = fold_size perm.length k i := by
  have hsum : (fold_sizes perm.length k).sum ≤ perm.length := by
    rw [fold_sizes_sum _ _ hk]
  have hmap := chunks_map_length (fold_sizes perm.length k) perm hsum
  have h1 : (test_slice perm k i).length
      = ((chunks (fold_sizes perm.length k) perm).map List.length).getD i 0 := by
    rw [test_slice]
    exact (List.getD_map _ ([] : List Nat) List.length).symm
  rw [h1, hmap, fold_sizes]
  have hr : i < (List.range k).length := by rw [List.length_range]; exact hi
  rw [List.getD_eq_getElem _ _ (by simpa using hi), List.getElem_map, List.getElem_range]

/-! ### F1 score bounds and degenerate behaviour -/

lemma f1_score_nonneg (y_true y_pred : List Nat) (p : Nat) :
    0 ≤ f1_score y_true y_pred p := by
  rw [f1_score]
  split
  · exact le_refl 0
  · positivity

lemma f1_score_le_one (y_true y_pred : List Nat) (p : Nat) :
    f1_score y_true y_pred p ≤ 1 := by
  rw [f1_score]
  split
  · norm_num
  next h =>
    rw [div_le_one (by exact_mod_cast Nat.pos_of_ne_zero h)]
    exact_mod_cast le_trans (Nat.le_add_right _ _) (Nat.le_add_right _ _)

lemma f1_score_degenerate (y_true y_pred : List Nat) (p : Nat)
    (h1 : ∀ l ∈ y_true, l ≠ p) (h2 : ∀ l ∈ y_pred, l ≠ p) :
    f1_score y_true y_pred p = 0 := by
  rw [f1_score]
  have htp : (y_true.zip y_pred).countP (fun ab => ab.1 == p && ab.2 == p) = 0 := by
    rw [List.countP_eq_zero]
    rintro ⟨a, b⟩ hab
    have hm := List.of_mem_zip hab
    simp [h1 a hm.1]
  have hfp : (y_true.zip y_pred).countP (fun ab => !(ab.1 == p) && ab.2 == p) = 0 := by
    rw [List.countP_eq_zero]
    rintro ⟨a, b⟩ hab
    have hm := List.of_mem_zip hab
    simp [h2 b hm.2]
  have hfn : (y_true.zip y_pred).countP (fun ab => ab.1 == p && !(ab.2 == p)) = 0 := by
    rw [List.countP_eq_zero]
    rintro ⟨a, b⟩ hab
    have hm := List.of_mem_zip hab
    simp [h1 a hm.1]
  rw [htp, hfp, hfn]
  simp

lemma getD_map_range (f : Nat → α) (d : α) (k i : Nat) (hi : i < k) :
    ((List.range k).map f).getD i d = f i := by
  rw [List.getD_eq_getElem _ _ (by simpa using hi), List.getElem_map, List.getElem_range]

/-! ### Another fixture: a degenerate single-class setting -/

/-- A classifier that predicts the constant label 0. -/
def tclf0 : Classifier (List Nat × List Nat) Nat :=
  { fitFn := fun X y => (X, y), predictFn := fun _s X => X.map (fun _ => 0) }

/-- A label vector that is identically 0 (single class). -/
def tY0 : Nat → Nat := fun _ => 0

/-! ### Claim theorems -/

/-- C1: the classifier's fitted state is overwritten by every fold's fit
call, so after the cross-validation loop the state is exactly the state
fitted on the last fold's training subset (independent of the incoming
state), and the hold-out evaluation of the pipeline scores exactly that
last-fold state — no fresh fit occurs between the loop and the hold-out
scoring. -/
theorem cv_state_reflects_last_fold (c : Classifier σ F) (X : Nat → F) (y : Nat → Nat)
    (perm : List Nat) (k pl nl : Nat) (pn nn : String) (s0 s0' : σ)
    (X_test : List F) (y_test : List Nat) (hk : 1 ≤ k) :
    (cross_validate c X y perm k pl nl pn nn s0).state = fold_fit_state c X y perm k (k - 1)
    ∧ cross_validate c X y perm k pl nl pn nn s0 = cross_validate c X y perm k pl nl pn nn s0'
    ∧ magnetism_holdout c X y perm s0 X_test y_test
        = round_to 2 (c.scoreOn (fold_fit_state c X y perm 5 4) X_test y_test) := by
  refine ⟨cross_validate_state c X y perm k pl nl pn nn s0 hk, ?_, ?_⟩
  · apply CVResult.ext
    · rw [cross_validate_state c X y perm k pl nl pn nn s0 hk,
        cross_validate_state c X y perm k pl nl pn nn s0' hk]
    · rw [cross_validate_pos, cross_validate_pos]
    · rw [cross_validate_neg, cross_validate_neg]
    · rw [cross_validate_lines, cross_validate_lines]
  · have hmag : magnetism_cell c X y perm s0 = cross_validate c X y perm 5 1 0 "FM" "AFM" s0 :=
      rfl
    show evaluate_holdout c (magnetism_cell c X y perm s0).state X_test y_test = _
    rw [hmag, cross_validate_state c X y perm 5 1 0 "FM" "AFM" s0 (by norm_num)]
    rfl

theorem cv_state_reflects_last_fold_witness :
    1 ≤ 2
    ∧ ((cross_validate tclf tX tY tPerm 2 1 0 "FM" "AFM"
          (([], []) : List Nat × List Nat)).state = fold_fit_state tclf tX tY tPerm 2 1
      ∧ cross_validate tclf tX tY tPerm 2 1 0 "FM" "AFM" (([], []) : List Nat × List Nat)
          = cross_validate tclf tX tY tPerm 2 1 0 "FM" "AFM" (([9], [9]) : List Nat × List Nat)
      ∧ magnetism_holdout tclf tX tY tPerm (([], []) : List Nat × List Nat) [6, 7] [0, 1]
          = round_to 2 (tclf.scoreOn (fold_fit_state tclf tX tY tPerm 5 4) [6, 7] [0, 1])) :=
  ⟨by decide,
    cv_state_reflects_last_fold tclf tX tY tPerm 2 1 0 "FM" "AFM"
      ([], []) ([9], [9]) [6, 7] [0, 1] (by decide)⟩

/-- C2: for every fold `i < k`, cross-validation fits the classifier on the
union of all folds except `i` (the complement of fold `i`'s test indices),
predicts on fold `i`, and records the F1 score with the positive label and
the F1 score with the negative label at position `i` of the respective
sequences; both sequences have length exactly `k`. -/
theorem cv_per_fold_semantics (c : Classifier σ F) (X : Nat → F) (y : Nat → Nat)
    (perm : List Nat) (n k pl nl : Nat) (pn nn : String) (s0 : σ)
    (hperm : perm.Perm (List.range n)) (hk : 1 ≤ k) :
    (cross_validate c X y perm k pl nl pn nn s0).pos_scores.length = k
    ∧ (cross_validate c X y perm k pl nl pn nn s0).neg_scores.length = k
    ∧ (∀ i, i < k →
        (cross_validate c X y perm k pl nl pn nn s0).pos_scores.getD i 0
          = f1_score ((test_indices perm k i).map y)
              (c.predictFn
                (c.fitFn ((train_indices perm k i).map X) ((train_indices perm k i).map y))
                ((test_indices perm k i).map X)) pl
        ∧ (cross_validate c X y perm k pl nl pn nn s0).neg_scores.getD i 0
          = f1_score ((test_indices perm k i).map y)
              (c.predictFn
                (c.fitFn ((train_indices perm k i).map X) ((train_indices perm k i).map y))
                ((test_indices perm k i).map X)) nl)
    ∧ (∀ i x, i < k →
        (x ∈ train_indices perm k i ↔ ∃ m, m < k ∧ m ≠ i ∧ x ∈ test_indices perm k m)) := by
  refine ⟨?_, ?_, ?_, ?_⟩
  · rw [cross_validate_pos]
    simp
  · rw [cross_validate_neg]
    simp
  · intro i hi
    constructor
    · rw [cross_validate_pos, getD_map_range _ _ _ _ hi]
      rfl
    · rw [cross_validate_neg, getD_map_range _ _ _ _ hi]
      rfl
  · intro i x hi
    have hnd : perm.Nodup := (hperm.nodup_iff).mpr (List.nodup_range n)
    rw [mem_train_indices_iff perm n k hperm]
    constructor
    · rintro ⟨hxn, hxs⟩
      have hxp : x ∈ perm := hperm.mem_iff.mpr (List.mem_range.mpr hxn)
      rcases exists_test_slice_of_mem perm k hk x hxp with ⟨m, hm, hxm⟩
      refine ⟨m, hm, ?_, (mem_test_indices_iff perm n k hperm m x).mpr hxm⟩
      rintro rfl
      exact hxs hxm
    · rintro ⟨m, hm, hmi, hxm⟩
      rw [mem_test_indices_iff perm n k hperm] at hxm
      have hxp : x ∈ perm := mem_of_mem_test_slice perm k m x hxm
      refine ⟨List.mem_range.mp (hperm.mem_iff.mp hxp), ?_⟩
      intro hxi
      exact (test_slice_disjoint perm k hnd m i hmi x hxm) hxi

theorem cv_per_fold_semantics_witness :
    (tPerm.Perm (List.range 5) ∧ 1 ≤ 2)
    ∧ ((cross_validate tclf tX tY tPerm 2 1 0 "FM" "AFM"
          (([], []) : List Nat × List Nat)).pos_scores.length = 2
      ∧ (cross_validate tclf tX tY tPerm 2 1 0 "FM" "AFM"
          (([], []) : List Nat × List Nat)).neg_scores.length = 2
      ∧ (∀ i, i < 2 →
          (cross_validate tclf tX tY tPerm 2 1 0 "FM" "AFM"
              (([], []) : List Nat × List Nat)).pos_scores.getD i 0
            = f1_score ((test_indices tPerm 2 i).map tY)
                (tclf.predictFn
                  (tclf.fitFn ((train_indices tPerm 2 i).map tX)
                    ((train_indices tPerm 2 i).map tY))
                  ((test_indices tPerm 2 i).map tX)) 1
          ∧ (cross_validate tclf tX tY tPerm 2 1 0 "FM" "AFM"
              (([], []) : List Nat × List Nat)).neg_scores.getD i 0
            = f1_score ((test_indices tPerm 2 i).map tY)
                (tclf.predictFn
                  (tclf.fitFn ((train_indices tPerm 2 i).map tX)
                    ((train_indices tPerm 2 i).map tY))
                  ((test_indices tPerm 2 i).map tX)) 0)
      ∧ (∀ i x, i < 2 →
          (x ∈ train_indices tPerm 2 i ↔ ∃ m, m < 2 ∧ m ≠ i ∧ x ∈ test_indices tPerm 2 m))) :=
  ⟨⟨by decide, by decide⟩,
    cv_per_fold_semantics tclf tX tY tPerm 5 2 1 0 "FM" "AFM" ([], [])
      (by decide) (by decide)⟩

/-- C3: for `n` samples the k-fold split yields pairwise disjoint test-index
sets whose union is exactly `0..n-1`, each index lying in exactly one test
set; the sets arise as contiguous chunks of the shuffled order with
near-equal sizes `n/k` or `n/k + 1`; and the split ignores the label vector
(it is not stratified by class). -/
theorem kfold_partition (perm : List Nat) (n k : Nat)
    (hperm : perm.Perm (List.range n)) (hk : 1 ≤ k) :
    (∀ i j x, i ≠ j → x ∈ test_indices perm k i → ¬ x ∈ test_indices perm k j)
    ∧ (∀ x, x < n ↔ ∃ i, i < k ∧ x ∈ test_indices perm k i)
    ∧ (∀ x, x < n → ∃! i, i < k ∧ x ∈ test_indices perm k i)
    ∧ (∀ i, i < k →
        (test_slice perm k i).length = n / k ∨ (test_slice perm k i).length = n / k + 1)
    ∧ (∀ y1 y2 : List Nat, kfold_split_call perm k y1 = kfold_split_call perm k y2) := by
  have hnd : perm.Nodup := (hperm.nodup_iff).mpr (List.nodup_range n)
  have hdisj : ∀ i j x, i ≠ j → x ∈ test_indices perm k i → ¬ x ∈ test_indices perm k j := by
    intro i j x hij hxi hxj
    rw [mem_test_indices_iff perm n k hperm] at hxi hxj
    exact test_slice_disjoint perm k hnd i j hij x hxi hxj
  have hcov : ∀ x, x < n ↔ ∃ i, i < k ∧ x ∈ test_indices perm k i := by
    intro x
    constructor
    · intro hx
      rcases exists_test_slice_of_mem perm k hk x
          (hperm.mem_iff.mpr (List.mem_range.mpr hx)) with ⟨i, hi, hxi⟩
      exact ⟨i, hi, (mem_test_indices_iff perm n k hperm i x).mpr hxi⟩
    · rintro ⟨i, hi, hxi⟩
      rw [mem_test_indices_iff perm n k hperm] at hxi
      exact List.mem_range.mp (hperm.mem_iff.mp (mem_of_mem_test_slice perm k i x hxi))
  refine ⟨hdisj, hcov, ?_, ?_, ?_⟩
  · intro x hx
    rcases (hcov x).mp hx with ⟨i, hi, hxi⟩
    refine ⟨i, ⟨hi, hxi⟩, ?_⟩
    rintro j ⟨hj, hxj⟩
    by_contra hne
    exact hdisj j i x hne hxj hxi
  · intro i hi
    have hlen := test_slice_length perm k hk i hi
    rw [perm_length_eq perm n hperm] at hlen
    rw [hlen, fold_size]
    by_cases h : i < n % k
    · right
      simp [h]
    · left
      simp [h]
  · intro y1 y2
    rfl

theorem kfold_partition_witness :
    (tPerm.Perm (List.range 5) ∧ 1 ≤ 2)
    ∧ ((∀ i j x, i ≠ j → x ∈ test_indices tPerm 2 i → ¬ x ∈ test_indices tPerm 2 j)
      ∧ (∀ x, x < 5 ↔ ∃ i, i < 2 ∧ x ∈ test_indices tPerm 2 i)
      ∧ (∀ x, x < 5 → ∃! i, i < 2 ∧ x ∈ test_indices tPerm 2 i)
      ∧ (∀ i, i < 2 →
          (test_slice tPerm 2 i).length = 5 / 2 ∨ (test_slice tPerm 2 i).length = 5 / 2 + 1)
      ∧ (∀ y1 y2 : List Nat, kfold_split_call tPerm 2 y1 = kfold_split_call tPerm 2 y2)) :=
  ⟨⟨by decide, by decide⟩, kfold_partition tPerm 5 2 (by decide) (by decide)⟩

/-- C5: swapping the positive and negative labels swaps which reported
sequence receives which values, while for every fold the unordered pair of
the two F1 values is unchanged. -/
theorem cv_swap_labels (c : Classifier σ F) (X : Nat → F) (y : Nat → Nat)
    (perm : List Nat) (k a b : Nat) (pn nn : String) (s0 : σ) :
    (cross_validate c X y perm k a b pn nn s0).pos_scores
      = (cross_validate c X y perm k b a pn nn s0).neg_scores
    ∧ (cross_validate c X y perm k a b pn nn s0).neg_scores
      = (cross_validate c X y perm k b a pn nn s0).pos_scores
    ∧ ∀ i : Nat,
        ({(cross_validate c X y perm k a b pn nn s0).pos_scores.getD i 0,
          (cross_validate c X y perm k a b pn nn s0).neg_scores.getD i 0} : Multiset ℚ)
        = {(cross_validate c X y perm k b a pn nn s0).pos_scores.getD i 0,
           (cross_validate c X y perm k b a pn nn s0).neg_scores.getD i 0} := by
  refine ⟨?_, ?_, ?_⟩
  · rw [cross_validate_pos, cross_validate_neg]
  · rw [cross_validate_neg, cross_validate_pos]
  · intro i
    rw [cross_validate_pos, cross_validate_neg, cross_validate_pos, cross_validate_neg]
    exact Multiset.pair_comm _ _

/-- C7: every recorded per-fold F1 score, for both class polarities, lies in
the closed interval [0, 1]. -/
theorem cv_scores_bounded (c : Classifier σ F) (X : Nat → F) (y : Nat → Nat)
    (perm : List Nat) (k pl nl : Nat) (pn nn : String) (s0 : σ) (s : ℚ)
    (hs : s ∈ (cross_validate c X y perm k pl nl pn nn s0).pos_scores
        ∨ s ∈ (cross_validate c X y perm k pl nl pn nn s0).neg_scores) :
    0 ≤ s ∧ s ≤ 1 := by
  rcases hs with h | h
  · rw [cross_validate_pos] at h
    rcases List.mem_map.mp h with ⟨i, _, rfl⟩
    simp only [fold_score]
    exact ⟨f1_score_nonneg _ _ _, f1_score_le_one _ _ _⟩
  · rw [cross_validate_neg] at h
    rcases List.mem_map.mp h with ⟨i, _, rfl⟩
    simp only [fold_score]
    exact ⟨f1_score_nonneg _ _ _, f1_score_le_one _ _ _⟩

theorem cv_scores_bounded_witness :
    ((0 : ℚ) ∈ (cross_validate tclf0 tX tY0 tPerm 2 1 0 "FM" "AFM"
        (([], []) : List Nat × List Nat)).pos_scores
      ∨ (0 : ℚ) ∈ (cross_validate tclf0 tX tY0 tPerm 2 1 0 "FM" "AFM"
        (([], []) : List Nat × List Nat)).neg_scores)
    ∧ (0 ≤ (0 : ℚ) ∧ (0 : ℚ) ≤ 1) :=
  ⟨Or.inl (by decide),
    cv_scores_bounded tclf0 tX tY0 tPerm 2 1 0 "FM" "AFM" ([], []) 0 (Or.inl (by decide))⟩

/-- C8: a fold whose test labels are all the negative class does not raise
an error or abort: the loop still records `k` scores in each sequence, the
F1 value stored for the degenerate fold is a well-defined value in [0, 1],
and it is silently 0 when the predictions also contain no positives. -/
theorem cv_degenerate_fold (c : Classifier σ F) (X : Nat → F) (y : Nat → Nat)
    (perm : List Nat) (k : Nat) (pn nn : String) (s0 : σ) (j : Nat) (hj : j < k)
    (hdeg : ∀ l ∈ (test_indices perm k j).map y, l = 0) :
    (cross_validate c X y perm k 1 0 pn nn s0).pos_scores.length = k
    ∧ (cross_validate c X y perm k 1 0 pn nn s0).neg_scores.length = k
    ∧ (0 ≤ (cross_validate c X y perm k 1 0 pn nn s0).pos_scores.getD j 0
        ∧ (cross_validate c X y perm k 1 0 pn nn s0).pos_scores.getD j 0 ≤ 1)
    ∧ ((∀ l ∈ fold_pred c X y perm k j, l = 0) →
        (cross_validate c X y perm k 1 0 pn nn s0).pos_scores.getD j 0 = 0) := by
  refine ⟨?_, ?_, ?_, ?_⟩
  · rw [cross_validate_pos]
    simp
  · rw [cross_validate_neg]
    simp
  · rw [cross_validate_pos, getD_map_range _ _ _ _ hj]
    simp only [fold_score]
    exact ⟨f1_score_nonneg _ _ _, f1_score_le_one _ _ _⟩
  · intro hpred
    rw [cross_validate_pos, getD_map_range _ _ _ _ hj]
    apply f1_score_degenerate
    · intro l hl
      rw [hdeg l hl]
      decide
    · intro l hl
      rw [hpred l hl]
      decide

theorem cv_degenerate_fold_witness :
    (0 < 2 ∧ (∀ l ∈ (test_indices tPerm 2 0).map tY0, l = 0))
    ∧ ((cross_validate tclf0 tX tY0 tPerm 2 1 0 "FM" "AFM"
          (([], []) : List Nat × List Nat)).pos_scores.length = 2
      ∧ (cross_validate tclf0 tX tY0 tPerm 2 1 0 "FM" "AFM"
          (([], []) : List Nat × List Nat)).neg_scores.length = 2
      ∧ (0 ≤ (cross_validate tclf0 tX tY0 tPerm 2 1 0 "FM" "AFM"
            (([], []) : List Nat × List Nat)).pos_scores.getD 0 0
        ∧ (cross_validate tclf0 tX tY0 tPerm 2 1 0 "FM" "AFM"
            (([], []) : List Nat × List Nat)).pos_scores.getD 0 0 ≤ 1)
      ∧ ((∀ l ∈ fold_pred tclf0 tX tY0 tPerm 2 0, l = 0) →
          (cross_validate tclf0 tX tY0 tPerm 2 1 0 "FM" "AFM"
            (([], []) : List Nat × List Nat)).pos_scores.getD 0 0 = 0)) :=
  ⟨⟨by decide, by decide⟩,
    cv_degenerate_fold tclf0 tX tY0 tPerm 2 "FM" "AFM" ([], []) 0 (by decide) (by decide)⟩

/-- C10: the magnetism and topology cross-validation cells implement the same
evaluation procedure: each equals the parametrised `cross_validate` with
labels 1/0 and `k = 5`, differing only in the printed class-name strings;
in particular their per-fold score sequences and final classifier states
coincide. -/
theorem cells_equivalent (c : Classifier σ F) (X : Nat → F) (y : Nat → Nat)
    (perm : List Nat) (s0 : σ) :
    magnetism_cell c X y perm s0 = cross_validate c X y perm 5 1 0 "FM" "AFM" s0
    ∧ topology_cell c X y perm s0 = cross_validate c X y perm 5 1 0 "Topological" "Trivial" s0
    ∧ (magnetism_cell c X y perm s0).pos_scores = (topology_cell c X y perm s0).pos_scores
    ∧ (magnetism_cell c X y perm s0).neg_scores = (topology_cell c X y perm s0).neg_scores
    ∧ (magnetism_cell c X y perm s0).state = (topology_cell c X y perm s0).state := by
  have h1 : magnetism_cell c X y perm s0 = cross_validate c X y perm 5 1 0 "FM" "AFM" s0 := rfl
  have h2 : topology_cell c X y perm s0
      = cross_validate c X y perm 5 1 0 "Topological" "Trivial" s0 := rfl
  refine ⟨h1, h2, ?_, ?_, ?_⟩
  · rw [h1, h2, cross_validate_pos, cross_validate_pos]
  · rw [h1, h2, cross_validate_neg, cross_validate_neg]
  · rw [h1, h2, cross_validate_state c X y perm 5 1 0 "FM" "AFM" s0 (by norm_num),
      cross_validate_state c X y perm 5 1 0 "Topological" "Trivial" s0 (by norm_num)]

/-! ### Accuracy as a match fraction (C4) -/

lemma countP_zip_eq_card_filter (a : List Nat) : ∀ b : List Nat, a.length = b.length →
    (a.zip b).countP (fun ab => ab.1 == ab.2)
      = ((Finset.range a.length).filter (fun i => a.getD i 0 = b.getD i 1)).card := by
  induction a with
  | nil =>
    intro b h
    simp
  | cons x a ih =>
    intro b h
    cases b with
    | nil => simp at h
    | cons z b =>
      simp only [List.length_cons] at h
      have hab : a.length = b.length := by omega
      simp only [List.zip_cons_cons, List.countP_cons, ih b hab, List.length_cons]
      rw [Finset.card_filter]
      conv_rhs => rw [Finset.card_filter, Finset.sum_range_succ']
      simp [beq_iff_eq]

/-- C4: `evaluate_holdout` reports exactly `round(accuracy, 2)` where the
accuracy is the fraction of held-out samples whose predicted label equals
the ground-truth label. -/
theorem holdout_accuracy_match_fraction (c : Classifier σ F) (s : σ)
    (X_test : List F) (y_test : List Nat)
    (hlen : (c.predictFn s X_test).length = y_test.length) :
    evaluate_holdout c s X_test y_test
      = round_to 2
          ((((Finset.range y_test.length).filter
              (fun i => y_test.getD i 0 = (c.predictFn s X_test).getD i 1)).card : ℚ)
            / (y_test.length : ℚ)) := by
  rw [evaluate_holdout, Classifier.scoreOn, accuracy_score,
    countP_zip_eq_card_filter y_test (c.predictFn s X_test) hlen.symm]

theorem holdout_accuracy_match_fraction_witness :
    (tclf.predictFn (([], []) : List Nat × List Nat) [1, 2]).length = ([1, 0] : List Nat).length
    ∧ evaluate_holdout tclf (([], []) : List Nat × List Nat) [1, 2] [1, 0]
        = round_to 2
            ((((Finset.range ([1, 0] : List Nat).length).filter
                (fun i => ([1, 0] : List Nat).getD i 0
                  = (tclf.predictFn (([], []) : List Nat × List Nat) [1, 2]).getD i 1)).card : ℚ)
              / (([1, 0] : List Nat).length : ℚ)) :=
  ⟨by decide,
    holdout_accuracy_match_fraction tclf ([], []) [1, 2] [1, 0] (by decide)⟩

/-! ### classification_report row order (C9) -/

lemma le_foldr_max (l : List Nat) (x : Nat) (hx : x ∈ l) : x ≤ l.foldr max 0 := by
  induction l with
  | nil => simp at hx
  | cons a l ih =>
    simp only [List.foldr_cons]
    rcases List.mem_cons.mp hx with rfl | hx
    · exact le_max_left _ _
    · exact le_trans (ih hx) (le_max_right _ _)

lemma foldr_max_le (l : List Nat) (m : Nat) (h : ∀ x ∈ l, x ≤ m) : l.foldr max 0 ≤ m := by
  induction l with
  | nil =>
    simp only [List.foldr_nil]
    exact Nat.zero_le m
  | cons a l ih =>
    simp only [List.foldr_cons]
    exact max_le (h a (List.mem_cons_self a l)) (ih fun x hx => h x (List.mem_cons_of_mem a hx))

lemma labels_present_binary (y_true y_pred : List Nat)
    (hall : ∀ l ∈ y_true ++ y_pred, l ≤ 1)
    (h0 : 0 ∈ y_true ++ y_pred) (h1 : 1 ∈ y_true ++ y_pred) :
    labels_present y_true y_pred = [0, 1] := by
  simp only [labels_present]
  have hmax : (y_true ++ y_pred).foldr max 0 = 1 :=
    le_antisymm (foldr_max_le _ _ hall) (le_foldr_max _ _ h1)
  rw [hmax]
  have h2 : List.range (1 + 1) = [0, 1] := by decide
  rw [h2]
  have d0 : decide (0 ∈ y_true ++ y_pred) = true := decide_eq_true h0
  have d1 : decide (1 ∈ y_true ++ y_pred) = true := decide_eq_true h1
  simp [List.filter_cons, d0, d1, List.mem_append.mp h0, List.mem_append.mp h1]

/-- C9: the per-class rows of the hold-out classification report map the
supplied human-readable class names onto the binary label codes in index
order: the negative label 0 is reported under `class_names[0]` and the
positive label 1 under `class_names[1]`, each with its own metrics and
support. -/
theorem report_names_in_index_order (y_true y_pred : List Nat) (n0 n1 : String)
    (hall : ∀ l ∈ y_true ++ y_pred, l ≤ 1)
    (h0 : 0 ∈ y_true ++ y_pred) (h1 : 1 ∈ y_true ++ y_pred) :
    classification_report y_true y_pred [n0, n1]
      = [{ name := n0, precisionVal := precisionOf y_true y_pred 0,
           recallVal := recallOf y_true y_pred 0, f1Val := f1_score y_true y_pred 0,
           supportVal := y_true.count 0 },
         { name := n1, precisionVal := precisionOf y_true y_pred 1,
           recallVal := recallOf y_true y_pred 1, f1Val := f1_score y_true y_pred 1,
           supportVal := y_true.count 1 }] := by
  rw [classification_report, labels_present_binary y_true y_pred hall h0 h1]
  rfl

theorem report_names_in_index_order_witness :
    ((∀ l ∈ ([0, 1, 1, 0] : List Nat) ++ [0, 1, 0, 0], l ≤ 1)
      ∧ 0 ∈ ([0, 1, 1, 0] : List Nat) ++ [0, 1, 0, 0]
      ∧ 1 ∈ ([0, 1, 1, 0] : List Nat) ++ [0, 1, 0, 0])
    ∧ classification_report [0, 1, 1, 0] [0, 1, 0, 0] ["AFM", "FM"]
      = [{ name := "AFM", precisionVal := precisionOf [0, 1, 1, 0] [0, 1, 0, 0] 0,
           recallVal := recallOf [0, 1, 1, 0] [0, 1, 0, 0] 0,
           f1Val := f1_score [0, 1, 1, 0] [0, 1, 0, 0] 0,
           supportVal := List.count 0 [0, 1, 1, 0] },
         { name := "FM", precisionVal := precisionOf [0, 1, 1, 0] [0, 1, 0, 0] 1,
           recallVal := recallOf [0, 1, 1, 0] [0, 1, 0, 0] 1,
           f1Val := f1_score [0, 1, 1, 0] [0, 1, 0, 0] 1,
           supportVal := List.count 1 [0, 1, 1, 0] }] :=
  ⟨⟨by decide, by decide, by decide⟩,
    report_names_in_index_order [0, 1, 1, 0] [0, 1, 0, 0] "AFM" "FM"
      (by decide) (by decide) (by decide)⟩

/-! ### Output-line indexing (C6) -/

lemma flatMap_pair_length (A B : Nat → α) (l : List Nat) :
    (l.flatMap (fun i => [A i, B i])).length = 2 * l.length := by
  induction l with
  | nil => simp
  | cons a l ih =>
    simp only [List.flatMap_cons, List.length_append, ih, List.length_cons]
    simp
    omega

lemma flatMap_pair_getD_even (A B : Nat → α) (d : α) :
    ∀ (l : List Nat) (j : Nat), j < l.length →
      (l.flatMap (fun i => [A i, B i])).getD (2 * j) d = A (l.getD j 0) := by
  intro l
  induction l with
  | nil =>
    intro j hj
    simp at hj
  | cons a l ih =>
    intro j hj
    cases j with
    | zero => simp [List.flatMap_cons]
    | succ j =>
      have h2 : 2 * (j + 1) = (2 * j + 1) + 1 := by omega
      simp only [List.flatMap_cons, List.cons_append, List.singleton_append, h2,
        List.getD_cons_succ]
      exact ih j (by simpa using Nat.lt_of_succ_lt_succ hj)

lemma flatMap_pair_getD_odd (A B : Nat → α) (d : α) :
    ∀ (l : List Nat) (j : Nat), j < l.length →
      (l.flatMap (fun i => [A i, B i])).getD (2 * j + 1) d = B (l.getD j 0) := by
  intro l
  induction l with
  | nil =>
    intro j hj
    simp at hj
  | cons a l ih =>
    intro j hj
    cases j with
    | zero => simp [List.flatMap_cons]
    | succ j =>
      have h2 : 2 * (j + 1) + 1 = ((2 * j + 1) + 1) + 1 := by omega
      simp only [List.flatMap_cons, List.cons_append, List.singleton_append, h2,
        List.getD_cons_succ]
      exact ih j (by simpa using Nat.lt_of_succ_lt_succ hj)

lemma getD_range (k j : Nat) (hj : j < k) : (List.range k).getD j 0 = j := by
  rw [List.getD_eq_getElem _ _ (by simpa using hj), List.getElem_range]

/-! ### Variance facts (C6) -/

lemma pop_variance_mul_length (xs : List ℚ) :
    pop_variance xs * (xs.length : ℚ) = (xs.map (fun x => (x - list_mean xs) ^ 2)).sum := by
  rw [pop_variance]
  rcases xs with _ | ⟨x, xs⟩
  · simp
  · rw [div_mul_cancel₀]
    simp only [List.length_cons]
    exact Nat.cast_ne_zero.mpr (Nat.succ_ne_zero _)

lemma pop_variance_pair (a b : ℚ) : pop_variance [a, b] = ((a - b) / 2) ^ 2 := by
  simp only [pop_variance, list_mean, List.map_cons, List.map_nil, List.sum_cons,
    List.sum_nil, List.length_cons, List.length_nil]
  push_cast
  field_simp
  ring

lemma pop_variance_nonneg (xs : List ℚ) : 0 ≤ pop_variance xs := by
  rw [pop_variance]
  apply div_nonneg
  · apply List.sum_nonneg
    intro x hx
    rcases List.mem_map.mp hx with ⟨w, _, rfl⟩
    positivity
  · positivity

lemma round_half_even_scaled_close (d : Nat) (q : ℚ) :
    |((round_half_even_scaled d q : ℤ) : ℚ) - q * ((10 ^ d : Nat) : ℚ)| ≤ 1 / 2 := by
  rw [round_half_even_scaled]
  set den : ℤ := (q.den : ℤ) with hden_def
  set m : ℤ := q.num * ((10 ^ d : Nat) : ℤ) with hm_def
  set e : ℤ := Int.fdiv m den with he_def
  set r : ℤ := m - e * den with hr_def
  have hden : (0 : ℤ) < den := by
    rw [hden_def]
    exact_mod_cast Rat.den_pos q
  have hdenQ : (0 : ℚ) < ((den : ℤ) : ℚ) := by exact_mod_cast hden
  have hdenQ0 : ((den : ℤ) : ℚ) ≠ 0 := ne_of_gt hdenQ
  have hfd : e = m / den := by
    rw [he_def]
    exact Int.fdiv_eq_ediv m hden.le
  have hr_emod : r = m % den := by
    have h := Int.ediv_add_emod m den
    rw [hr_def, hfd]
    linarith [mul_comm (m / den) den]
  have hr0 : 0 ≤ r := by
    rw [hr_emod]
    exact Int.emod_nonneg m hden.ne'
  have hrlt : r < den := by
    rw [hr_emod]
    exact Int.emod_lt_of_pos m hden
  have hqm : q * ((10 ^ d : Nat) : ℚ) = (m : ℚ) / ((den : ℤ) : ℚ) := by
    rw [eq_div_iff hdenQ0, hm_def, hden_def]
    push_cast
    linear_combination ((10 : ℚ) ^ d) * (Rat.mul_den_eq_num q)
  have hm_split : ((m : ℤ) : ℚ) = ((e : ℤ) : ℚ) * ((den : ℤ) : ℚ) + ((r : ℤ) : ℚ) := by
    have h : m = e * den + r := by
      rw [hr_def]
      ring
    exact_mod_cast h
  rw [hqm]
  split
  next hlt =>
    have he1 : ((e : ℤ) : ℚ) - (m : ℚ) / ((den : ℤ) : ℚ) = -(((r : ℤ) : ℚ) / ((den : ℤ) : ℚ)) := by
      rw [hm_split]
      field_simp
    rw [he1, abs_neg, abs_of_nonneg (div_nonneg (by exact_mod_cast hr0) hdenQ.le),
      div_le_div_iff₀ hdenQ (by norm_num : (0 : ℚ) < 2)]
    have h2 : (2 : ℚ) * ((r : ℤ) : ℚ) < ((den : ℤ) : ℚ) := by exact_mod_cast hlt
    linarith
  next hge1 =>
    split
    next hgt =>
      have he1 : (((e + 1 : ℤ)) : ℚ) - (m : ℚ) / ((den : ℤ) : ℚ)
          = (((den : ℤ) : ℚ) - ((r : ℤ) : ℚ)) / ((den : ℤ) : ℚ) := by
        rw [Int.cast_add, Int.cast_one, hm_split]
        field_simp
        ring
      have hnn : (0 : ℚ) ≤ (((den : ℤ) : ℚ) - ((r : ℤ) : ℚ)) / ((den : ℤ) : ℚ) := by
        apply div_nonneg _ hdenQ.le
        have : ((r : ℤ) : ℚ) < ((den : ℤ) : ℚ) := by exact_mod_cast hrlt
        linarith
      rw [he1, abs_of_nonneg hnn, div_le_div_iff₀ hdenQ (by norm_num : (0 : ℚ) < 2)]
      have h2 : ((den : ℤ) : ℚ) < 2 * ((r : ℤ) : ℚ) := by exact_mod_cast hgt
      linarith
    next hle =>
      have htie : 2 * r = den := by omega
      have hr2 : ((r : ℤ) : ℚ) / ((den : ℤ) : ℚ) = 1 / 2 := by
        rw [div_eq_div_iff hdenQ0 (by norm_num : (2 : ℚ) ≠ 0)]
        have h2 : (2 : ℚ) * ((r : ℤ) : ℚ) = ((den : ℤ) : ℚ) := by exact_mod_cast htie
        linarith
      split
      next _ =>
        have he1 : ((e : ℤ) : ℚ) - (m : ℚ) / ((den : ℤ) : ℚ)
            = -(((r : ℤ) : ℚ) / ((den : ℤ) : ℚ)) := by
          rw [hm_split]
          field_simp
        rw [he1, abs_neg, abs_of_nonneg (by rw [hr2]; norm_num), hr2]
      next _ =>
        have he1 : (((e + 1 : ℤ)) : ℚ) - (m : ℚ) / ((den : ℤ) : ℚ)
            = (((den : ℤ) : ℚ) - ((r : ℤ) : ℚ)) / ((den : ℤ) : ℚ) := by
          rw [Int.cast_add, Int.cast_one, hm_split]
          field_simp
          ring
        have hdr : (((den : ℤ) : ℚ) - ((r : ℤ) : ℚ)) / ((den : ℤ) : ℚ) = 1 / 2 := by
          rw [sub_div, div_self hdenQ0, hr2]
          norm_num
        rw [he1, hdr, abs_of_nonneg (by norm_num : (0 : ℚ) ≤ 1 / 2)]

lemma sqrt_scaled_2_close (v : ℚ) (hv : 0 ≤ v) :
    |((sqrt_scaled_2 v : ℤ) : ℝ) / 100 - Real.sqrt ((v : ℚ) : ℝ)| ≤ 1 / 200 := by
  rw [sqrt_scaled_2]
  split
  next hv0 =>
    have hv0' : v = 0 := le_antisymm hv0 hv
    rw [hv0']
    norm_num
  next hv0 =>
    push_neg at hv0
    dsimp only
    set p : Nat := v.num.toNat * 10000 with hp_def
    set qd : Nat := v.den with hqd_def
    set e : Nat := Nat.sqrt (p * qd) / qd with he_def
    set s : Nat := Nat.sqrt (p * qd) with hs_def
    have hqd0 : 0 < qd := by
      rw [hqd_def]
      exact Rat.den_pos v
    have hQ : (0 : ℝ) < (qd : ℝ) := by exact_mod_cast hqd0
    have hnum : 0 < v.num := Rat.num_pos.mpr hv0
    -- the scaled value w = p / qd equals 10000 * v
    have hw : ((p : ℝ)) / ((qd : ℝ)) = 10000 * ((v : ℚ) : ℝ) := by
      rw [hp_def, hqd_def]
      have htn : ((v.num.toNat : ℤ) : ℝ) = ((v.num : ℤ) : ℝ) := by
        exact_mod_cast congrArg (fun z : ℤ => (z : ℝ)) (Int.toNat_of_nonneg hnum.le)
      push_cast
      rw [Rat.cast_def]
      push_cast at htn
      rw [htn]
      field_simp
      ring
    -- sqrt of the scaled value is 100 * sqrt v
    have hsqrt_w : Real.sqrt ((p : ℝ) / (qd : ℝ)) = 100 * Real.sqrt ((v : ℚ) : ℝ) := by
      have h1 : ((p : ℝ)) / ((qd : ℝ)) = (100 : ℝ) ^ 2 * ((v : ℚ) : ℝ) := by
        rw [hw]
        norm_num
      rw [h1, Real.sqrt_mul (by positivity) _, Real.sqrt_sq (by norm_num : (0 : ℝ) ≤ 100)]
    -- Nat.sqrt bounds transferred to ℝ
    have hs_le : ((s : ℝ)) ≤ Real.sqrt ((p * qd : Nat) : ℝ) := by
      rw [Real.le_sqrt (by positivity) (by positivity)]
      exact_mod_cast Nat.sqrt_le' (p * qd)
    have hs_lt : Real.sqrt ((p * qd : Nat) : ℝ) < (s : ℝ) + 1 := by
      rw [Real.sqrt_lt' (by positivity)]
      exact_mod_cast Nat.lt_succ_sqrt' (p * qd)
    -- sqrt(p/qd) = sqrt(p*qd)/qd
    have hsplit : Real.sqrt ((p : ℝ) / (qd : ℝ)) = Real.sqrt ((p * qd : Nat) : ℝ) / (qd : ℝ) := by
      have h1 : ((p * qd : Nat) : ℝ) = ((p : ℝ) / (qd : ℝ)) * ((qd : ℝ)) ^ 2 := by
        push_cast
        field_simp
        ring
      rw [h1, Real.sqrt_mul (by positivity) _, Real.sqrt_sq hQ.le]
      field_simp
      ring
    -- e ≤ sqrt(p/qd)
    have he_le : ((e : ℝ)) ≤ Real.sqrt ((p : ℝ) / (qd : ℝ)) := by
      rw [hsplit, le_div_iff₀ hQ]
      calc ((e : ℝ)) * (qd : ℝ) ≤ (s : ℝ) := by
            exact_mod_cast Nat.div_mul_le_self s qd
        _ ≤ Real.sqrt ((p * qd : Nat) : ℝ) := hs_le
    -- sqrt(p/qd) < e + 1
    have hlt_e1 : Real.sqrt ((p : ℝ) / (qd : ℝ)) < (e : ℝ) + 1 := by
      rw [hsplit, div_lt_iff₀ hQ]
      have hsq : s < qd * (e + 1) := by
        have h1 := Nat.div_add_mod s qd
        have h2 := Nat.mod_lt s hqd0
        rw [← he_def] at h1
        rw [Nat.mul_succ]
        linarith
      calc Real.sqrt ((p * qd : Nat) : ℝ) < (s : ℝ) + 1 := hs_lt
        _ ≤ ((e : ℝ) + 1) * (qd : ℝ) := by
            have : ((s : ℝ)) + 1 ≤ ((qd : ℝ)) * ((e : ℝ) + 1) := by exact_mod_cast hsq
            linarith
    have hfinal : ∀ z : ℤ, |((z : ℝ)) - Real.sqrt ((p : ℝ) / (qd : ℝ))| ≤ 1 / 2 →
        |((z : ℝ)) / 100 - Real.sqrt ((v : ℚ) : ℝ)| ≤ 1 / 200 := by
      intro z hz
      rw [hsqrt_w] at hz
      have h1 : ((z : ℝ)) / 100 - Real.sqrt ((v : ℚ) : ℝ)
          = (((z : ℝ)) - 100 * Real.sqrt ((v : ℚ) : ℝ)) / 100 := by ring
      have h2 : |(100 : ℝ)| = 100 := by norm_num
      rw [h1, abs_div, h2, div_le_iff₀ (by norm_num : (0 : ℝ) < 100)]
      calc |((z : ℝ)) - 100 * Real.sqrt ((v : ℚ) : ℝ)| ≤ 1 / 2 := hz
        _ ≤ 1 / 200 * 100 := by norm_num
    split
    next hA =>
      apply hfinal
      push_cast
      have hWlt : Real.sqrt ((p : ℝ) / (qd : ℝ)) < (e : ℝ) + 1 / 2 := by
        have h1 : ((e : ℝ) + 1 / 2) = (2 * (e : ℝ) + 1) / 2 := by ring
        rw [h1, Real.sqrt_lt' (by positivity), div_lt_iff₀ hQ]
        have hc : (4 : ℝ) * (p : ℝ) < (2 * (e : ℝ) + 1) ^ 2 * (qd : ℝ) := by exact_mod_cast hA
        nlinarith [hc, hQ]
      rw [abs_le]
      refine ⟨by linarith [hWlt], by linarith [he_le]⟩
    next hA1 =>
      split
      next hB =>
        apply hfinal
        push_cast
        have hWgt : (e : ℝ) + 1 / 2 < Real.sqrt ((p : ℝ) / (qd : ℝ)) := by
          have h1 : ((e : ℝ) + 1 / 2) = (2 * (e : ℝ) + 1) / 2 := by ring
          rw [h1, Real.lt_sqrt (by positivity)]
          rw [lt_div_iff₀ hQ]
          have hc : (2 * (e : ℝ) + 1) ^ 2 * (qd : ℝ) < 4 * (p : ℝ) := by exact_mod_cast hB
          nlinarith [hc, hQ]
        rw [abs_le]
        refine ⟨by linarith [hlt_e1], by linarith [hWgt]⟩
      next hB1 =>
        have htie : 4 * p = (2 * e + 1) ^ 2 * qd := by omega
        have hW : Real.sqrt ((p : ℝ) / (qd : ℝ)) = (e : ℝ) + 1 / 2 := by
          have h1 : ((p : ℝ) / (qd : ℝ)) = ((e : ℝ) + 1 / 2) ^ 2 := by
            have hc : (4 : ℝ) * (p : ℝ) = (2 * (e : ℝ) + 1) ^ 2 * (qd : ℝ) := by
              exact_mod_cast htie
            rw [div_eq_iff (ne_of_gt hQ)]
            nlinarith [hc]
          rw [h1, Real.sqrt_sq (by positivity)]
        split
        next _ =>
          apply hfinal
          push_cast
          rw [hW]
          have h1 : (e : ℝ) - ((e : ℝ) + 1 / 2) = -(1 / 2) := by ring
          rw [h1, abs_neg, abs_of_nonneg (by norm_num : (0 : ℝ) ≤ 1 / 2)]
        next _ =>
          apply hfinal
          push_cast
          rw [hW]
          have h1 : (e : ℝ) + 1 - ((e : ℝ) + 1 / 2) = 1 / 2 := by ring
          rw [h1, abs_of_nonneg (by norm_num : (0 : ℝ) ≤ 1 / 2)]

/-- C6: the console output has the fixed formats
`"[fold {i}] {name} score: {f1:.3f}"` (one line per fold per polarity,
F1 rounded to three decimals) followed by one summary line per class
`"{name} Mean: {m:.2f} median: {md:.2f} stdev: {sd:.2f}"`, where the mean,
median and *population* standard deviation (divisor `n`, not `n-1`) of the
k per-fold scores are printed with two-decimal rounding: the scaled
rounding is within 1/2 of the exact scaled value, and the printed standard
deviation is within half a unit in the last place of `√(pop_variance)`. -/
theorem cv_output_format (c : Classifier σ F) (X : Nat → F) (y : Nat → Nat)
    (perm : List Nat) (k pl nl : Nat) (pn nn : String) (s0 : σ) (i : Nat) (hik : i < k) :
    (cross_validate c X y perm k pl nl pn nn s0).lines.length = 2 * k + 2
    ∧ (cross_validate c X y perm k pl nl pn nn s0).lines.getD (2 * i) ""
        = "[fold " ++ toString i ++ "] " ++ pn ++ " score: "
          ++ fmt_fixed 3 (fold_score c X y perm k pl i)
    ∧ (cross_validate c X y perm k pl nl pn nn s0).lines.getD (2 * i + 1) ""
        = "[fold " ++ toString i ++ "] " ++ nn ++ " score: "
          ++ fmt_fixed 3 (fold_score c X y perm k nl i)
    ∧ (cross_validate c X y perm k pl nl pn nn s0).lines.getD (2 * k) ""
        = pn ++ " Mean: "
          ++ fmt_fixed 2 (list_mean ((List.range k).map (fold_score c X y perm k pl)))
          ++ " median: "
          ++ fmt_fixed 2 (list_median ((List.range k).map (fold_score c X y perm k pl)))
          ++ " stdev: "
          ++ fmt_std (pop_variance ((List.range k).map (fold_score c X y perm k pl)))
    ∧ (cross_validate c X y perm k pl nl pn nn s0).lines.getD (2 * k + 1) ""
        = nn ++ " Mean: "
          ++ fmt_fixed 2 (list_mean ((List.range k).map (fold_score c X y perm k nl)))
          ++ " median: "
          ++ fmt_fixed 2 (list_median ((List.range k).map (fold_score c X y perm k nl)))
          ++ " stdev: "
          ++ fmt_std (pop_variance ((List.range k).map (fold_score c X y perm k nl)))
    ∧ (∀ xs : List ℚ,
        pop_variance xs * (xs.length : ℚ) = (xs.map (fun x => (x - list_mean xs) ^ 2)).sum)
    ∧ (∀ a b : ℚ, pop_variance [a, b] = ((a - b) / 2) ^ 2)
    ∧ (∀ w : ℚ, |((round_half_even_scaled 2 w : ℤ) : ℚ) - w * 100| ≤ 1 / 2)
    ∧ (∀ w : ℚ, |((round_half_even_scaled 3 w : ℤ) : ℚ) - w * 1000| ≤ 1 / 2)
    ∧ (∀ w : ℚ, 0 ≤ w →
        |((sqrt_scaled_2 w : ℤ) : ℝ) / 100 - Real.sqrt ((w : ℚ) : ℝ)| ≤ 1 / 200)
    ∧ 0 ≤ pop_variance ((List.range k).map (fold_score c X y perm k pl)) := by
  have hflat : ∀ j, j < k →
      ∀ d : String, ((List.range k).flatMap (fun i =>
          [fold_line i pn (fold_score c X y perm k pl i),
           fold_line i nn (fold_score c X y perm k nl i)])).getD (2 * j) d
        = fold_line j pn (fold_score c X y perm k pl j) := by
    intro j hj d
    rw [flatMap_pair_getD_even _ _ _ _ _ (by simpa using hj), getD_range k j hj]
  have hflat1 : ∀ j, j < k →
      ∀ d : String, ((List.range k).flatMap (fun i =>
          [fold_line i pn (fold_score c X y perm k pl i),
           fold_line i nn (fold_score c X y perm k nl i)])).getD (2 * j + 1) d
        = fold_line j nn (fold_score c X y perm k nl j) := by
    intro j hj d
    rw [flatMap_pair_getD_odd _ _ _ _ _ (by simpa using hj), getD_range k j hj]
  have hlen : ((List.range k).flatMap (fun i =>
      [fold_line i pn (fold_score c X y perm k pl i),
       fold_line i nn (fold_score c X y perm k nl i)])).length = 2 * k := by
    rw [flatMap_pair_length]
    simp
  refine ⟨?_, ?_, ?_, ?_, ?_, pop_variance_mul_length, pop_variance_pair, ?_, ?_,
    sqrt_scaled_2_close, pop_variance_nonneg _⟩
  · rw [cross_validate_lines]
    rw [List.length_append, hlen]
    simp
  · rw [cross_validate_lines, List.getD_append _ _ _ _ (by rw [hlen]; omega),
      hflat i hik]
    rfl
  · rw [cross_validate_lines, List.getD_append _ _ _ _ (by rw [hlen]; omega),
      hflat1 i hik]
    rfl
  · rw [cross_validate_lines, List.getD_append_right _ _ _ _ (by rw [hlen]), hlen]
    simp only [Nat.sub_self, List.getD_cons_zero]
    rfl
  · rw [cross_validate_lines, List.getD_append_right _ _ _ _ (by rw [hlen]; omega), hlen]
    have h1 : 2 * k + 1 - 2 * k = 1 := by omega
    rw [h1, List.getD_cons_succ, List.getD_cons_zero]
    rfl
  · intro w
    have h := round_half_even_scaled_close 2 w
    simpa using h
  · intro w
    have h := round_half_even_scaled_close 3 w
    simpa using h

theorem cv_output_format_witness :
    0 < 2
    ∧ ((cross_validate tclf0 tX tY0 tPerm 2 1 0 "FM" "AFM"
          (([], []) : List Nat × List Nat)).lines.length = 2 * 2 + 2
      ∧ (cross_validate tclf0 tX tY0 tPerm 2 1 0 "FM" "AFM"
          (([], []) : List Nat × List Nat)).lines.getD (2 * 0) ""
          = "[fold " ++ toString 0 ++ "] " ++ "FM" ++ " score: "
            ++ fmt_fixed 3 (fold_score tclf0 tX tY0 tPerm 2 1 0)
      ∧ (cross_validate tclf0 tX tY0 tPerm 2 1 0 "FM" "AFM"
          (([], []) : List Nat × List Nat)).lines.getD (2 * 0 + 1) ""
          = "[fold " ++ toString 0 ++ "] " ++ "AFM" ++ " score: "
            ++ fmt_fixed 3 (fold_score tclf0 tX tY0 tPerm 2 0 0)
      ∧ (cross_validate tclf0 tX tY0 tPerm 2 1 0 "FM" "AFM"
          (([], []) : List Nat × List Nat)).lines.getD (2 * 2) ""
          = "FM" ++ " Mean: "
            ++ fmt_fixed 2 (list_mean ((List.range 2).map (fold_score tclf0 tX tY0 tPerm 2 1)))
            ++ " median: "
            ++ fmt_fixed 2 (list_median ((List.range 2).map (fold_score tclf0 tX tY0 tPerm 2 1)))
            ++ " stdev: "
            ++ fmt_std (pop_variance ((List.range 2).map (fold_score tclf0 tX tY0 tPerm 2 1)))
      ∧ (cross_validate tclf0 tX tY0 tPerm 2 1 0 "FM" "AFM"
          (([], []) : List Nat × List Nat)).lines.getD (2 * 2 + 1) ""
          = "AFM" ++ " Mean: "
            ++ fmt_fixed 2 (list_mean ((List.range 2).map (fold_score tclf0 tX tY0 tPerm 2 0)))
            ++ " median: "
            ++ fmt_fixed 2 (list_median ((List.range 2).map (fold_score tclf0 tX tY0 tPerm 2 0)))
            ++ " stdev: "
            ++ fmt_std (pop_variance ((List.range 2).map (fold_score tclf0 tX tY0 tPerm 2 0)))
      ∧ (∀ xs : List ℚ,
          pop_variance xs * (xs.length : ℚ) = (xs.map (fun x => (x - list_mean xs) ^ 2)).sum)
      ∧ (∀ a b : ℚ, pop_variance [a, b] = ((a - b) / 2) ^ 2)
      ∧ (∀ w : ℚ, |((round_half_even_scaled 2 w : ℤ) : ℚ) - w * 100| ≤ 1 / 2)
      ∧ (∀ w : ℚ, |((round_half_even_scaled 3 w : ℤ) : ℚ) - w * 1000| ≤ 1 / 2)
      ∧ (∀ w : ℚ, 0 ≤ w →
          |((sqrt_scaled_2 w : ℤ) : ℝ) / 100 - Real.sqrt ((w : ℚ) : ℝ)| ≤ 1 / 200)
      ∧ 0 ≤ pop_variance ((List.range 2).map (fold_score tclf0 tX tY0 tPerm 2 1))) :=
  ⟨by decide,
    cv_output_format tclf0 tX tY0 tPerm 2 1 0 "FM" "AFM" ([], []) 0 (by decide)⟩
